import Mathlib

/-!
Verification of the Chaikin curve-editing tool (Rust, src/lib.rs) against its
natural-language specification.  Coordinates are embedded as exact rationals:
every computation the claims exercise multiplies by 0.75 / 0.25, adds,
subtracts and compares, and on the concrete inputs appearing below all of
these are exact in the 32-bit floats of the source as well, so the rational
model is faithful to the code paths under scrutiny.
-/

/-- The 2D point type of the source (struct Pt with x, y coordinates). -/
structure Pt where
  x : ℚ
  y : ℚ
deriving DecidableEq, Repr

/-- Default point used to totalize list indexing; every index the code uses
is in range, so the default is never observed. -/
def pt0 : Pt := ⟨0, 0⟩

/-- Squared distance between two points, fn dist2 in lib.rs. -/
def dist2 (a b : Pt) : ℚ :=
  (a.x - b.x) * (a.x - b.x) + (a.y - b.y) * (a.y - b.y)

/-- Canvas width constant from lib.rs. -/
def WIDTH : ℚ := 1200

/-- Canvas height constant from lib.rs. -/
def HEIGHT : ℚ := 900

/-- Maximum iteration depth constant from lib.rs. -/
def MAX_STEPS : Nat := 7

/-- Click radius constant from lib.rs, also the closed-detection threshold. -/
def CLICK_RADIUS : ℚ := 10

/-- The Q point of one Chaikin corner cut: three quarters of the way
towards p0 (weights 0.75 / 0.25 as in lib.rs lines 54-57 and 78-81). -/
def chaikinQ (p0 p1 : Pt) : Pt :=
  ⟨p0.x * 0.75 + p1.x * 0.25, p0.y * 0.75 + p1.y * 0.25⟩

/-- The R point of one Chaikin corner cut: three quarters of the way
towards p1 (weights 0.25 / 0.75 as in lib.rs lines 58-61 and 82-85). -/
def chaikinR (p0 p1 : Pt) : Pt :=
  ⟨p0.x * 0.25 + p1.x * 0.75, p0.y * 0.25 + p1.y * 0.75⟩

/-- One Chaikin subdivision step, fn chaikin_step in lib.rs lines 42-92.
Fewer than 2 points: unchanged.  Closed variant: for each cyclic segment
i to (i+1) mod n emit Q then R.  Open variant: exactly 2 points unchanged,
otherwise first point, then Q and R for each consecutive segment, then the
last point. -/
def chaikin_step (points : List Pt) (closed : Bool) : List Pt :=
  let n := points.length
  if n < 2 then points
  else if closed then
    ((List.range n).map (fun i =>
      let p0 := points.getD i pt0
      let p1 := points.getD ((i + 1) % n) pt0
      [chaikinQ p0 p1, chaikinR p0 p1])).flatten
  else if n = 2 then points
  else
    points.getD 0 pt0 ::
      (((List.range (n - 1)).map (fun i =>
        let p0 := points.getD i pt0
        let p1 := points.getD (i + 1) pt0
        [chaikinQ p0 p1, chaikinR p0 p1])).flatten ++ [points.getD (n - 1) pt0])

/-- Closedness decision of precompute_iterations, lib.rs lines 98-106: start
from the hint; if there are at least 3 points and first and last are within
the click radius, force closed. -/
def detectClosed (base : List Pt) (closed_hint : Bool) : Bool :=
  if 3 ≤ base.length then
    if dist2 (base.getD 0 pt0) (base.getD (base.length - 1) pt0) ≤
        CLICK_RADIUS * CLICK_RADIUS
    then true
    else closed_hint
  else closed_hint

/-- Base normalization of precompute_iterations, lib.rs lines 108-118: when
closed, at least 2 points and first and last are within the click radius,
drop the trailing duplicate point; otherwise keep the base unchanged. -/
def normalizeBase (base : List Pt) (closed : Bool) : List Pt :=
  if closed = true ∧ 2 ≤ base.length then
    if dist2 (base.getD 0 pt0) (base.getD (base.length - 1) pt0) ≤
        CLICK_RADIUS * CLICK_RADIUS
    then base.take (base.length - 1)
    else base
  else base

/-- The iteration loop of precompute_iterations, lib.rs lines 123-130: each
round pushes the current sequence unchanged when it has fewer than 2 points,
otherwise pushes one further chaikin_step of it. -/
def precompute_loop (closed : Bool) : Nat → List Pt → List (List Pt)
  | 0, _ => []
  | k + 1, cur =>
    if cur.length < 2 then
      cur :: precompute_loop closed k cur
    else
      chaikin_step cur closed :: precompute_loop closed k (chaikin_step cur closed)

/-- fn precompute_iterations of lib.rs lines 97-133: decide closedness,
normalize the base, then record level 0 followed by max_steps further
levels. -/
def precompute_iterations (base : List Pt) (max_steps : Nat) (closed_hint : Bool) :
    List (List Pt) :=
  let closed := detectClosed base closed_hint
  let cur := normalizeBase base closed
  cur :: precompute_loop closed max_steps cur

/-- The detect-and-normalize pair of section 4.3 of the spec, exactly the
composition performed by lib.rs lines 97-118 before iterating: the
normalized base together with the decided closedness flag. -/
def detect_and_normalize (base : List Pt) (closed_hint : Bool) : List Pt × Bool :=
  (normalizeBase base (detectClosed base closed_hint), detectClosed base closed_hint)

/-- The application state, struct App of lib.rs lines 135-143.  The
last_anim_instant field is replaced by feeding each render tick a boolean
saying whether the animation interval has elapsed: real time does not
otherwise enter the state. -/
structure App where
  control_points : List Pt
  cached_iters : List (List Pt)
  dragging : Option Nat
  last_mouse_pos : Pt
  anim_running : Bool
  anim_step : Nat

/-- App::new of lib.rs lines 146-158. -/
def App.new : App where
  control_points := []
  cached_iters := precompute_iterations [] MAX_STEPS false
  dragging := none
  last_mouse_pos := ⟨0, 0⟩
  anim_running := false
  anim_step := 0

/-- App::mouse_pos_to_pt of lib.rs lines 160-165: clamp the raw mouse
position into the canvas rectangle. -/
def mouse_pos_to_pt (pos : Pt) : Pt :=
  ⟨min (max pos.x 0) WIDTH, min (max pos.y 0) HEIGHT⟩

/-- App::find_point_index_near of lib.rs lines 167-177: first index whose
squared distance to the probe is within the radius squared. -/
def find_point_index_near (pts : List Pt) (pt : Pt) (radius : ℚ) : Option Nat :=
  List.findIdx? (fun p => dist2 p pt ≤ radius * radius) pts

/-- App::recompute_cache of lib.rs lines 180-187: rebuild the cache with
hint false, then reset anim_step to 0 if it is out of range. -/
def App.recompute_cache (s : App) : App :=
  if s.anim_step ≥ (precompute_iterations s.control_points MAX_STEPS false).length then
    { s with cached_iters := precompute_iterations s.control_points MAX_STEPS false,
             anim_step := 0 }
  else
    { s with cached_iters := precompute_iterations s.control_points MAX_STEPS false }

/-- State effect of App::on_draw, lib.rs lines 193-205: when running with
at least 3 points and the interval has elapsed, advance anim_step with a
usize wrapping increment and reset it past MAX_STEPS; otherwise, outside
the running case, force anim_step to 0.  Drawing calls have no state
effect. -/
def App.on_draw (s : App) (elapsed : Bool) : App :=
  if s.anim_running = true ∧ 3 ≤ s.control_points.length then
    if elapsed then
      if (s.anim_step + 1) % 2 ^ 64 > MAX_STEPS then { s with anim_step := 0 }
      else { s with anim_step := (s.anim_step + 1) % 2 ^ 64 }
    else s
  else { s with anim_step := 0 }

/-- The dataset chosen for drawing by App::on_draw, lib.rs lines 209-213,
evaluated after the animation-timing update: the cached level at anim_step
when at least 3 control points exist, else the raw control points. -/
def App.to_draw (s : App) (elapsed : Bool) : List Pt :=
  let s := s.on_draw elapsed
  if 3 ≤ s.control_points.length then s.cached_iters.getD s.anim_step []
  else s.control_points

/-- App::on_mouse_move of lib.rs lines 287-298: record the mouse position;
while dragging a still-valid index, clamp the position into the canvas,
overwrite that control point and rebuild the cache; a stale index silently
ends the drag.  The source stores the position before matching on the drag
state; the match does not depend on that field, so the write is folded into
each arm here. -/
def App.on_mouse_move (s : App) (position : Pt) : App :=
  match s.dragging with
  | some idx =>
    if idx < s.control_points.length then
      App.recompute_cache
        { s with last_mouse_pos := position,
                 control_points := s.control_points.set idx (mouse_pos_to_pt position) }
    else
      { s with last_mouse_pos := position, dragging := none }
  | none => { s with last_mouse_pos := position }

/-- Mouse buttons distinguished by the handlers: the left button and
everything else. -/
inductive MButton where
  | left
  | other

/-- App::on_mouse_button_down of lib.rs lines 302-314: on the left button,
start dragging a near point if one exists, else append the clamped cursor
position and rebuild the cache. -/
def App.on_mouse_button_down (s : App) (button : MButton) : App :=
  match button with
  | .left =>
    let pt := mouse_pos_to_pt s.last_mouse_pos
    match find_point_index_near s.control_points pt CLICK_RADIUS with
    | some idx => { s with dragging := some idx }
    | none =>
      App.recompute_cache { s with control_points := s.control_points ++ [pt] }
  | .other => s

/-- App::on_mouse_button_up of lib.rs lines 316-320: the left button ends
any drag. -/
def App.on_mouse_button_up (s : App) (button : MButton) : App :=
  match button with
  | .left => { s with dragging := none }
  | .other => s

/-- The keys the key handler distinguishes.  Escape terminates the process
in lib.rs lines 331-334, so no successor state arises from it and it is
not modelled as a transition. -/
inductive Key where
  | enter
  | keyC
  | other

/-- App::on_key_down of lib.rs lines 323-357: Enter toggles the animation
when points exist, restarting from step 0 when turning it on (the source
negates the flag and then tests the new value; the two branches are written
out here); C clears the points, rebuilds the cache and stops the animation
at step 0. -/
def App.on_key_down (s : App) (key : Key) : App :=
  match key with
  | .enter =>
    if s.control_points.length = 0 then s
    else if s.anim_running = true then { s with anim_running := false }
    else { s with anim_running := true, anim_step := 0 }
  | .keyC =>
    { App.recompute_cache { s with control_points := [] } with
        anim_running := false, anim_step := 0 }
  | .other => s

/-- One input event of the single-threaded event loop. -/
inductive Event where
  | mouseMove (position : Pt)
  | mouseDown (button : MButton)
  | mouseUp (button : MButton)
  | keyDown (key : Key)
  | draw (elapsed : Bool)

/-- Dispatch of one event to its handler. -/
def App.applyEvent (s : App) : Event → App
  | .mouseMove position => s.on_mouse_move position
  | .mouseDown button => s.on_mouse_button_down button
  | .mouseUp button => s.on_mouse_button_up button
  | .keyDown key => s.on_key_down key
  | .draw elapsed => s.on_draw elapsed

/-- The reachable application states: the initial state and everything the
event handlers produce from a reachable state. -/
inductive Reachable : App → Prop where
  | init : Reachable App.new
  | step (s : App) (e : Event) : Reachable s → Reachable (s.applyEvent e)

theorem getD_mem_of_lt (l : List Pt) (i : Nat) (h : i < l.length) : l.getD i pt0 ∈ l := by
  rw [List.getD_eq_getElem?_getD, List.getElem?_eq_getElem h]
  exact List.getElem_mem h

theorem normalizeBase_false (base : List Pt) : normalizeBase base false = base := by
  simp [normalizeBase]

theorem length_precompute_loop (closed : Bool) (k : Nat) :
    ∀ cur : List Pt, (precompute_loop closed k cur).length = k := by
  induction k with
  | zero => intro cur; rfl
  | succ k ih =>
    intro cur
    unfold precompute_loop
    split
    · simp [ih]
    · simp [ih]

theorem length_precompute_iterations (base : List Pt) (n : Nat) (hint : Bool) :
    (precompute_iterations base n hint).length = n + 1 := by
  simp [precompute_iterations, length_precompute_loop]

theorem precompute_loop_invariant (closed : Bool) (P : List Pt → Prop)
    (hstep : ∀ l, P l → P (chaikin_step l closed)) :
    ∀ (k : Nat) (cur : List Pt), P cur → ∀ L ∈ precompute_loop closed k cur, P L := by
  intro k
  induction k with
  | zero => intro cur _ L hL; simp [precompute_loop] at hL
  | succ k ih =>
    intro cur hcur L hL
    unfold precompute_loop at hL
    split at hL
    · rcases List.mem_cons.mp hL with rfl | hL
      · exact hcur
      · exact ih cur hcur L hL
    · rcases List.mem_cons.mp hL with rfl | hL
      · exact hstep cur hcur
      · exact ih _ (hstep cur hcur) L hL

theorem precompute_iterations_mem (base : List Pt) (n : Nat) (hint : Bool)
    (P : List Pt → Prop)
    (hstep : ∀ l, P l → P (chaikin_step l (detectClosed base hint)))
    (hbase : P (normalizeBase base (detectClosed base hint))) :
    ∀ L ∈ precompute_iterations base n hint, P L := by
  intro L hL
  simp only [precompute_iterations] at hL
  rcases List.mem_cons.mp hL with rfl | hL
  · exact hbase
  · exact precompute_loop_invariant _ P hstep n _ hbase L hL

theorem precompute_getD_mem (base : List Pt) (n : Nat) (hint : Bool) (k : Nat)
    (hk : k ≤ n) :
    (precompute_iterations base n hint).getD k [] ∈ precompute_iterations base n hint := by
  have hlen : k < (precompute_iterations base n hint).length := by
    rw [length_precompute_iterations]; omega
  rw [List.getD_eq_getElem?_getD, List.getElem?_eq_getElem hlen]
  exact List.getElem_mem hlen

theorem chaikin_step_open_head (ps : List Pt) :
    (chaikin_step ps false).getD 0 pt0 = ps.getD 0 pt0 := by
  simp only [chaikin_step]
  split
  · rfl
  · split
    · simp_all
    · split
      · rfl
      · simp

theorem chaikin_step_open_last (ps : List Pt) :
    (chaikin_step ps false).getD ((chaikin_step ps false).length - 1) pt0
      = ps.getD (ps.length - 1) pt0 := by
  simp only [chaikin_step]
  split
  · rfl
  · split
    · simp_all
    · split
      · rfl
      · generalize (((List.range (ps.length - 1)).map _).flatten : List Pt) = J
        have h1 : (ps.getD 0 pt0 :: (J ++ [ps.getD (ps.length - 1) pt0])).length - 1
            = J.length + 1 := by simp
        rw [h1, List.getD_cons_succ]
        simp [List.getD_eq_getElem?_getD]

/-- Membership of the canvas rectangle, the clamp target of
App::mouse_pos_to_pt. -/
def InRect (p : Pt) : Prop :=
  0 ≤ p.x ∧ p.x ≤ WIDTH ∧ 0 ≤ p.y ∧ p.y ≤ HEIGHT

theorem InRect_chaikinQ (p0 p1 : Pt) (h0 : InRect p0) (h1 : InRect p1) :
    InRect (chaikinQ p0 p1) := by
  obtain ⟨a1, a2, a3, a4⟩ := h0
  obtain ⟨b1, b2, b3, b4⟩ := h1
  refine ⟨?_, ?_, ?_, ?_⟩ <;> simp only [chaikinQ] <;> nlinarith

theorem InRect_chaikinR (p0 p1 : Pt) (h0 : InRect p0) (h1 : InRect p1) :
    InRect (chaikinR p0 p1) := by
  obtain ⟨a1, a2, a3, a4⟩ := h0
  obtain ⟨b1, b2, b3, b4⟩ := h1
  refine ⟨?_, ?_, ?_, ?_⟩ <;> simp only [chaikinR] <;> nlinarith

theorem chaikin_step_inRect (ps : List Pt) (c : Bool) (h : ∀ p ∈ ps, InRect p) :
    ∀ p ∈ chaikin_step ps c, InRect p := by
  intro p hp
  simp only [chaikin_step] at hp
  split at hp
  · exact h p hp
  · rename_i hn2
    split at hp
    · rw [List.mem_flatten] at hp
      obtain ⟨l, hl, hpl⟩ := hp
      rw [List.mem_map] at hl
      obtain ⟨i, hi, rfl⟩ := hl
      rw [List.mem_range] at hi
      have hn : 0 < ps.length := by omega
      have h0 := h _ (getD_mem_of_lt ps i hi)
      have h1 := h _ (getD_mem_of_lt ps ((i + 1) % ps.length) (Nat.mod_lt _ hn))
      rcases List.mem_cons.mp hpl with rfl | hpl
      · exact InRect_chaikinQ _ _ h0 h1
      · rcases List.mem_cons.mp hpl with rfl | hpl
        · exact InRect_chaikinR _ _ h0 h1
        · simp at hpl
    · split at hp
      · exact h p hp
      · rcases List.mem_cons.mp hp with rfl | hp
        · exact h _ (getD_mem_of_lt ps 0 (by omega))
        · rcases List.mem_append.mp hp with hp | hp
          · rw [List.mem_flatten] at hp
            obtain ⟨l, hl, hpl⟩ := hp
            rw [List.mem_map] at hl
            obtain ⟨i, hi, rfl⟩ := hl
            rw [List.mem_range] at hi
            have h0 := h _ (getD_mem_of_lt ps i (by omega))
            have h1 := h _ (getD_mem_of_lt ps (i + 1) (by omega))
            rcases List.mem_cons.mp hpl with rfl | hpl
            · exact InRect_chaikinQ _ _ h0 h1
            · rcases List.mem_cons.mp hpl with rfl | hpl
              · exact InRect_chaikinR _ _ h0 h1
              · simp at hpl
          · rw [List.mem_singleton] at hp
            subst hp
            exact h _ (getD_mem_of_lt ps (ps.length - 1) (by omega))

theorem normalizeBase_subset (base : List Pt) (c : Bool) :
    ∀ p ∈ normalizeBase base c, p ∈ base := by
  intro p hp
  unfold normalizeBase at hp
  split at hp
  · split at hp
    · exact List.take_subset _ _ hp
    · exact hp
  · exact hp

/-- C1: for every input of length at least 3 on which closedness detection
with hint false yields false, one open chaikin_step preserves the first and
the last point, and every cache level k in 0..=MAX_STEPS has the same first
and last points as the input (which is level 0). -/
theorem open_endpoint_preservation (base : List Pt)
    (h3 : 3 ≤ base.length) (hopen : detectClosed base false = false) :
    ((chaikin_step base false).getD 0 pt0 = base.getD 0 pt0 ∧
      (chaikin_step base false).getD ((chaikin_step base false).length - 1) pt0
        = base.getD (base.length - 1) pt0) ∧
    (∀ k ≤ MAX_STEPS,
      ((precompute_iterations base MAX_STEPS false).getD k []).getD 0 pt0
          = base.getD 0 pt0 ∧
      ((precompute_iterations base MAX_STEPS false).getD k []).getD
          (((precompute_iterations base MAX_STEPS false).getD k []).length - 1) pt0
        = base.getD (base.length - 1) pt0) := by
  refine ⟨⟨chaikin_step_open_head base, chaikin_step_open_last base⟩, ?_⟩
  intro k hk
  refine precompute_iterations_mem base MAX_STEPS false
    (fun l => l.getD 0 pt0 = base.getD 0 pt0 ∧
      l.getD (l.length - 1) pt0 = base.getD (base.length - 1) pt0) ?_ ?_ _
    (precompute_getD_mem base MAX_STEPS false k hk)
  · intro l hl
    rw [hopen]
    exact ⟨(chaikin_step_open_head l).trans hl.1, (chaikin_step_open_last l).trans hl.2⟩
  · rw [hopen, normalizeBase_false]
    exact ⟨rfl, rfl⟩

/-- Witness for C1 at the open triangle of scenario A. -/
theorem open_endpoint_preservation_witness :
    (3 ≤ ([⟨0,0⟩, ⟨10,0⟩, ⟨10,10⟩] : List Pt).length ∧
      detectClosed [⟨0,0⟩, ⟨10,0⟩, ⟨10,10⟩] false = false) ∧
    (∀ k ≤ MAX_STEPS,
      ((precompute_iterations [⟨0,0⟩, ⟨10,0⟩, ⟨10,10⟩] MAX_STEPS false).getD k []).getD 0 pt0
          = ([⟨0,0⟩, ⟨10,0⟩, ⟨10,10⟩] : List Pt).getD 0 pt0 ∧
      ((precompute_iterations [⟨0,0⟩, ⟨10,0⟩, ⟨10,10⟩] MAX_STEPS false).getD k []).getD
          (((precompute_iterations [⟨0,0⟩, ⟨10,0⟩, ⟨10,10⟩] MAX_STEPS false).getD k []).length
            - 1) pt0
        = ([⟨0,0⟩, ⟨10,0⟩, ⟨10,10⟩] : List Pt).getD
            (([⟨0,0⟩, ⟨10,0⟩, ⟨10,10⟩] : List Pt).length - 1) pt0) :=
  ⟨⟨by norm_num, by norm_num [detectClosed, dist2, CLICK_RADIUS, pt0]⟩,
    (open_endpoint_preservation [⟨0,0⟩, ⟨10,0⟩, ⟨10,10⟩] (by norm_num)
      (by norm_num [detectClosed, dist2, CLICK_RADIUS, pt0])).2⟩

/-- C10: when every control point lies in the canvas rectangle (as the
input clamp guarantees), every point of every cache level lies in the
canvas rectangle, for the open and the closed variant alike. -/
theorem canvas_containment (base : List Pt) (hint : Bool)
    (h : ∀ p ∈ base, InRect p) :
    (∀ pos : Pt, InRect (mouse_pos_to_pt pos)) ∧
    ∀ L ∈ precompute_iterations base MAX_STEPS hint, ∀ p ∈ L, InRect p := by
  constructor
  · intro pos
    refine ⟨le_min (le_max_right _ _) (by norm_num [WIDTH]), min_le_right _ _,
      le_min (le_max_right _ _) (by norm_num [HEIGHT]), min_le_right _ _⟩
  · exact precompute_iterations_mem base MAX_STEPS hint (fun l => ∀ p ∈ l, InRect p)
      (fun l hl => chaikin_step_inRect l _ hl)
      (fun p hp => h p (normalizeBase_subset base _ p hp))

/-- Witness for C10 at a concrete in-canvas input. -/
theorem canvas_containment_witness :
    (∀ p ∈ ([⟨0,0⟩, ⟨600,450⟩, ⟨1200,900⟩] : List Pt), InRect p) ∧
    ((∀ pos : Pt, InRect (mouse_pos_to_pt pos)) ∧
      ∀ L ∈ precompute_iterations [⟨0,0⟩, ⟨600,450⟩, ⟨1200,900⟩] MAX_STEPS false,
        ∀ p ∈ L, InRect p) :=
  ⟨by norm_num [InRect, WIDTH, HEIGHT],
    canvas_containment [⟨0,0⟩, ⟨600,450⟩, ⟨1200,900⟩] false
      (by norm_num [InRect, WIDTH, HEIGHT])⟩

theorem length_chaikin_step_closed (ps : List Pt) (h : 2 ≤ ps.length) :
    (chaikin_step ps true).length = 2 * ps.length := by
  simp only [chaikin_step]
  rw [if_neg (by omega), if_pos trivial, List.length_flatten, List.map_map]
  have hconst : (List.length ∘ fun i =>
      [chaikinQ (ps.getD i pt0) (ps.getD ((i + 1) % ps.length) pt0),
        chaikinR (ps.getD i pt0) (ps.getD ((i + 1) % ps.length) pt0)])
      = fun _ => 2 := by
    funext i
    rfl
  rw [hconst, List.map_const', List.sum_replicate, List.length_range, smul_eq_mul]
  ring

theorem detectClosed_hint_false_iff (base : List Pt) :
    detectClosed base false = true ↔
      3 ≤ base.length ∧
        dist2 (base.getD 0 pt0) (base.getD (base.length - 1) pt0)
          ≤ CLICK_RADIUS * CLICK_RADIUS := by
  unfold detectClosed
  split
  · split
    · simp_all
    · simp_all
  · simp_all

theorem normalizeBase_closed_length (base : List Pt)
    (h3 : 3 ≤ base.length)
    (hprox : dist2 (base.getD 0 pt0) (base.getD (base.length - 1) pt0)
      ≤ CLICK_RADIUS * CLICK_RADIUS) :
    (normalizeBase base true).length = base.length - 1 := by
  unfold normalizeBase
  rw [if_pos ⟨rfl, by omega⟩, if_pos hprox]
  simp

theorem precompute_loop_length_closed :
    ∀ (k : Nat) (cur : List Pt), 2 ≤ cur.length → ∀ j < k,
      ((precompute_loop true k cur).getD j []).length = cur.length * 2 ^ (j + 1) := by
  intro k
  induction k with
  | zero => intro cur h j hj; omega
  | succ k ih =>
    intro cur h j hj
    unfold precompute_loop
    rw [if_neg (by omega)]
    cases j with
    | zero =>
      simp only [List.getD_cons_zero]
      rw [length_chaikin_step_closed cur h]
      ring
    | succ j =>
      rw [List.getD_cons_succ]
      have h2 : 2 ≤ (chaikin_step cur true).length := by
        rw [length_chaikin_step_closed cur h]
        omega
      rw [ih _ h2 j (by omega), length_chaikin_step_closed cur h]
      ring

/-- C2: when closedness detection with hint false fires, every cache level
k in 0..=MAX_STEPS has exactly (normalized base length) times 2 to the k
points; and on any sequence of at least 2 points one closed chaikin_step
returns exactly twice as many points. -/
theorem closed_cache_doubling (base : List Pt)
    (h : detectClosed base false = true) :
    (∀ k ≤ MAX_STEPS,
      ((precompute_iterations base MAX_STEPS false).getD k []).length
        = (normalizeBase base (detectClosed base false)).length * 2 ^ k) ∧
    (∀ ps : List Pt, 2 ≤ ps.length →
      (chaikin_step ps true).length = 2 * ps.length) := by
  refine ⟨?_, fun ps hps => length_chaikin_step_closed ps hps⟩
  intro k hk
  obtain ⟨h3, hprox⟩ := (detectClosed_hint_false_iff base).mp h
  have hcur : (normalizeBase base true).length = base.length - 1 :=
    normalizeBase_closed_length base h3 hprox
  have hcur2 : 2 ≤ (normalizeBase base true).length := by omega
  simp only [precompute_iterations, h]
  cases k with
  | zero => simp
  | succ j =>
    rw [List.getD_cons_succ]
    rw [precompute_loop_length_closed MAX_STEPS _ hcur2 j (by omega)]

/-- Witness for C2 at a concrete closing triangle. -/
theorem closed_cache_doubling_witness :
    detectClosed [⟨0,0⟩, ⟨100,0⟩, ⟨3,4⟩] false = true ∧
    ((∀ k ≤ MAX_STEPS,
      ((precompute_iterations [⟨0,0⟩, ⟨100,0⟩, ⟨3,4⟩] MAX_STEPS false).getD k []).length
        = (normalizeBase [⟨0,0⟩, ⟨100,0⟩, ⟨3,4⟩]
            (detectClosed [⟨0,0⟩, ⟨100,0⟩, ⟨3,4⟩] false)).length * 2 ^ k) ∧
    (∀ ps : List Pt, 2 ≤ ps.length →
      (chaikin_step ps true).length = 2 * ps.length)) :=
  ⟨by norm_num [detectClosed, dist2, CLICK_RADIUS, pt0],
    closed_cache_doubling [⟨0,0⟩, ⟨100,0⟩, ⟨3,4⟩]
      (by norm_num [detectClosed, dist2, CLICK_RADIUS, pt0])⟩

/-- C3 counterexample: on the scenario A control points the output of one
open chaikin_step is not the sequence the claim lists (the claim swaps the
Q and R points of the first segment). -/
theorem scenario_a_claim_false :
    ¬ (detectClosed [⟨0,0⟩, ⟨10,0⟩, ⟨10,10⟩] false = false ∧
      chaikin_step [⟨0,0⟩, ⟨10,0⟩, ⟨10,10⟩] false =
        [⟨0,0⟩, ⟨7.5,0⟩, ⟨2.5,0⟩, ⟨10,2.5⟩, ⟨10,7.5⟩, ⟨10,10⟩]) := by
  intro h
  have h2 := h.2
  norm_num [chaikin_step, chaikinQ, chaikinR, pt0, List.range_succ] at h2

/-- C3 amended: on the scenario A control points detection yields open, and
one chaikin_step returns the Q point before the R point of each segment:
(2.5,0) precedes (7.5,0). -/
theorem scenario_a_corrected :
    detectClosed [⟨0,0⟩, ⟨10,0⟩, ⟨10,10⟩] false = false ∧
    chaikin_step [⟨0,0⟩, ⟨10,0⟩, ⟨10,10⟩] false =
      [⟨0,0⟩, ⟨2.5,0⟩, ⟨7.5,0⟩, ⟨10,2.5⟩, ⟨10,7.5⟩, ⟨10,10⟩] := by
  constructor
  · norm_num [detectClosed, dist2, CLICK_RADIUS, pt0]
  · norm_num [chaikin_step, chaikinQ, chaikinR, pt0, List.range_succ]

/-- C4 counterexample: a closed input whose normalized output still has at
least 3 points with first and last within the click radius, so a second
detect-and-normalize run drops a further point. -/
theorem detect_normalize_not_idempotent :
    (detect_and_normalize [⟨0,0⟩, ⟨1,0⟩, ⟨9,0⟩, ⟨2,0⟩] false).2 = true ∧
    (detect_and_normalize [⟨0,0⟩, ⟨1,0⟩, ⟨9,0⟩, ⟨2,0⟩] false).1
      = [⟨0,0⟩, ⟨1,0⟩, ⟨9,0⟩] ∧
    (detect_and_normalize [⟨0,0⟩, ⟨1,0⟩, ⟨9,0⟩] false).1
      ≠ [⟨0,0⟩, ⟨1,0⟩, ⟨9,0⟩] := by
  refine ⟨?_, ?_, ?_⟩ <;>
    norm_num [detect_and_normalize, detectClosed, normalizeBase, dist2, CLICK_RADIUS, pt0]

/-- C4 amended: detect-and-normalize returns a normalized closed output
unchanged provided that output has fewer than 3 points or its own first and
last points are no longer within the click radius. -/
theorem detect_normalize_idempotent_amended (base b2 : List Pt)
    (hclosed : (detect_and_normalize base false).2 = true)
    (hb2 : b2 = (detect_and_normalize base false).1)
    (hside : b2.length < 3 ∨
      ¬ dist2 (b2.getD 0 pt0) (b2.getD (b2.length - 1) pt0)
          ≤ CLICK_RADIUS * CLICK_RADIUS) :
    (detect_and_normalize b2 false).1 = b2 := by
  have hdet : detectClosed b2 false = false := by
    rcases Bool.eq_false_or_eq_true (detectClosed b2 false) with h | h
    · obtain ⟨h3, hprox⟩ := (detectClosed_hint_false_iff b2).mp h
      rcases hside with h | h
      · omega
      · exact absurd hprox h
    · exact h
  simp [detect_and_normalize, hdet, normalizeBase_false]

/-- Witness for the amended C4 at a concrete closing triangle whose
normalized output has only 2 points. -/
theorem detect_normalize_idempotent_amended_witness :
    (detect_and_normalize [⟨0,0⟩, ⟨100,0⟩, ⟨3,4⟩] false).2 = true ∧
    ([⟨0,0⟩, ⟨100,0⟩] : List Pt) = (detect_and_normalize [⟨0,0⟩, ⟨100,0⟩, ⟨3,4⟩] false).1 ∧
    (([⟨0,0⟩, ⟨100,0⟩] : List Pt).length < 3 ∨
      ¬ dist2 (([⟨0,0⟩, ⟨100,0⟩] : List Pt).getD 0 pt0)
          (([⟨0,0⟩, ⟨100,0⟩] : List Pt).getD (([⟨0,0⟩, ⟨100,0⟩] : List Pt).length - 1) pt0)
          ≤ CLICK_RADIUS * CLICK_RADIUS) ∧
    (detect_and_normalize [⟨0,0⟩, ⟨100,0⟩] false).1 = [⟨0,0⟩, ⟨100,0⟩] :=
  ⟨by norm_num [detect_and_normalize, detectClosed, normalizeBase, dist2, CLICK_RADIUS, pt0],
    by norm_num [detect_and_normalize, detectClosed, normalizeBase, dist2, CLICK_RADIUS, pt0],
    Or.inl (by norm_num),
    detect_normalize_idempotent_amended [⟨0,0⟩, ⟨100,0⟩, ⟨3,4⟩] [⟨0,0⟩, ⟨100,0⟩]
      (by norm_num [detect_and_normalize, detectClosed, normalizeBase, dist2, CLICK_RADIUS, pt0])
      (by norm_num [detect_and_normalize, detectClosed, normalizeBase, dist2, CLICK_RADIUS, pt0])
      (Or.inl (by norm_num))⟩

/-- C6: on the scenario B control points detection with hint false forces
closed, the fourth point is dropped before iterating, and cache level 0 has
exactly 3 points. -/
theorem scenario_b_closed_detection :
    dist2 (⟨0,0⟩ : Pt) ⟨1,1⟩ ≤ CLICK_RADIUS * CLICK_RADIUS ∧
    detectClosed [⟨0,0⟩, ⟨100,0⟩, ⟨50,86.6⟩, ⟨1,1⟩] false = true ∧
    (detect_and_normalize [⟨0,0⟩, ⟨100,0⟩, ⟨50,86.6⟩, ⟨1,1⟩] false).1
      = [⟨0,0⟩, ⟨100,0⟩, ⟨50,86.6⟩] ∧
    ((precompute_iterations [⟨0,0⟩, ⟨100,0⟩, ⟨50,86.6⟩, ⟨1,1⟩] MAX_STEPS false).getD
        0 []).length = 3 := by
  refine ⟨?_, ?_, ?_, ?_⟩ <;>
    norm_num [precompute_iterations, detect_and_normalize, detectClosed, normalizeBase,
      dist2, CLICK_RADIUS, pt0]

theorem chaikin_step_closed_eq (ps : List Pt) (h : 2 ≤ ps.length) :
    chaikin_step ps true =
      ((List.range ps.length).map (fun i =>
        [chaikinQ (ps.getD i pt0) (ps.getD ((i + 1) % ps.length) pt0),
          chaikinR (ps.getD i pt0) (ps.getD ((i + 1) % ps.length) pt0)])).flatten := by
  unfold chaikin_step
  rw [if_neg (show ¬ ps.length < 2 by omega)]
  rw [if_pos rfl]

theorem getD_rotate_one (ps : List Pt) (i : Nat) (h : i < ps.length) :
    (ps.rotate 1).getD i pt0 = ps.getD ((i + 1) % ps.length) pt0 := by
  have hn : 0 < ps.length := by omega
  have hlen : i < (ps.rotate 1).length := by simp [h]
  rw [List.getD_eq_getElem _ _ hlen, List.getD_eq_getElem _ _ (Nat.mod_lt _ hn)]
  exact List.getElem_rotate ps 1 i hlen

/-- C5: the closed chaikin_step of the input rotated by one position has
exactly the same points, as a set, as the closed chaikin_step of the input:
the cyclic rule has no privileged start index. -/
theorem chaikin_step_closed_rotate (ps : List Pt) (p : Pt) (h2 : 2 ≤ ps.length) :
    p ∈ chaikin_step (ps.rotate 1) true ↔ p ∈ chaikin_step ps true := by
  have hn : 0 < ps.length := by omega
  have hlenrot : (ps.rotate 1).length = ps.length := List.length_rotate ps 1
  rw [chaikin_step_closed_eq ps h2,
    chaikin_step_closed_eq (ps.rotate 1) (by rw [hlenrot]; exact h2)]
  simp only [hlenrot, List.mem_flatten, List.mem_map, List.mem_range]
  constructor
  · rintro ⟨l, ⟨i, hi, rfl⟩, hp⟩
    refine ⟨_, ⟨(i + 1) % ps.length, Nat.mod_lt _ hn, rfl⟩, ?_⟩
    rwa [getD_rotate_one ps i hi,
      getD_rotate_one ps ((i + 1) % ps.length) (Nat.mod_lt _ hn)] at hp
  · rintro ⟨l, ⟨j, hj, rfl⟩, hp⟩
    have h1n : 1 % ps.length = 1 := Nat.mod_eq_of_lt (by omega)
    have hidx : ((j + ps.length - 1) % ps.length + 1) % ps.length = j := by
      have ha : (j + ps.length - 1 + 1) % ps.length
          = ((j + ps.length - 1) % ps.length + 1 % ps.length) % ps.length :=
        Nat.add_mod (j + ps.length - 1) 1 ps.length
      rw [h1n] at ha
      rw [← ha]
      have hb : j + ps.length - 1 + 1 = j + ps.length := by omega
      rw [hb, Nat.add_mod_right, Nat.mod_eq_of_lt hj]
    refine ⟨_, ⟨(j + ps.length - 1) % ps.length, Nat.mod_lt _ hn, rfl⟩, ?_⟩
    rw [getD_rotate_one ps ((j + ps.length - 1) % ps.length) (Nat.mod_lt _ hn),
      getD_rotate_one ps (((j + ps.length - 1) % ps.length + 1) % ps.length)
        (Nat.mod_lt _ hn), hidx]
    exact hp

/-- Witness for C5 at a concrete 2-point sequence and output point. -/
theorem chaikin_step_closed_rotate_witness :
    2 ≤ ([⟨0,0⟩, ⟨4,0⟩] : List Pt).length ∧
    ((⟨1,0⟩ : Pt) ∈ chaikin_step (([⟨0,0⟩, ⟨4,0⟩] : List Pt).rotate 1) true ↔
      (⟨1,0⟩ : Pt) ∈ chaikin_step [⟨0,0⟩, ⟨4,0⟩] true) :=
  ⟨by norm_num, chaikin_step_closed_rotate [⟨0,0⟩, ⟨4,0⟩] ⟨1,0⟩ (by norm_num)⟩

theorem recompute_cache_cached (s : App) :
    (App.recompute_cache s).cached_iters
      = precompute_iterations s.control_points MAX_STEPS false := by
  unfold App.recompute_cache
  split <;> rfl

theorem recompute_cache_control_points (s : App) :
    (App.recompute_cache s).control_points = s.control_points := by
  unfold App.recompute_cache
  split <;> rfl

theorem recompute_cache_dragging (s : App) :
    (App.recompute_cache s).dragging = s.dragging := by
  unfold App.recompute_cache
  split <;> rfl

theorem recompute_cache_running (s : App) :
    (App.recompute_cache s).anim_running = s.anim_running := by
  unfold App.recompute_cache
  split <;> rfl

theorem recompute_cache_last_mouse (s : App) :
    (App.recompute_cache s).last_mouse_pos = s.last_mouse_pos := by
  unfold App.recompute_cache
  split <;> rfl

theorem recompute_cache_anim_step (s : App) :
    (App.recompute_cache s).anim_step = s.anim_step
      ∨ (App.recompute_cache s).anim_step = 0 := by
  unfold App.recompute_cache
  split
  · right; rfl
  · left; rfl

theorem recompute_cache_anim_step_lt (s : App) :
    (App.recompute_cache s).anim_step < (App.recompute_cache s).cached_iters.length := by
  unfold App.recompute_cache
  split
  · simp [length_precompute_iterations]
  · rename_i h
    rw [length_precompute_iterations] at h
    simp only [not_le] at h
    simpa [length_precompute_iterations] using h

/-- The cache-index invariant of reachable states: the playback index never
exceeds MAX_STEPS and the cache always holds MAX_STEPS + 1 levels. -/
def AppInv (s : App) : Prop :=
  s.anim_step ≤ MAX_STEPS ∧ s.cached_iters.length = MAX_STEPS + 1

theorem on_mouse_move_eq_of_dragging (s : App) (pos : Pt) (idx : Nat)
    (hd : s.dragging = some idx) (hlt : idx < s.control_points.length) :
    s.on_mouse_move pos = App.recompute_cache
      { s with last_mouse_pos := pos,
               control_points := s.control_points.set idx (mouse_pos_to_pt pos) } := by
  unfold App.on_mouse_move
  rw [hd]
  dsimp only
  rw [if_pos hlt]

theorem on_mouse_move_eq_of_stale (s : App) (pos : Pt) (idx : Nat)
    (hd : s.dragging = some idx) (hge : ¬ idx < s.control_points.length) :
    s.on_mouse_move pos = { s with last_mouse_pos := pos, dragging := none } := by
  unfold App.on_mouse_move
  rw [hd]
  dsimp only
  rw [if_neg hge]

theorem on_mouse_move_eq_none (s : App) (pos : Pt) (hd : s.dragging = none) :
    s.on_mouse_move pos = { s with last_mouse_pos := pos } := by
  unfold App.on_mouse_move
  rw [hd]

theorem AppInv_recompute (s : App) : AppInv (App.recompute_cache s) := by
  unfold AppInv App.recompute_cache
  split
  · exact ⟨Nat.zero_le _, by simp [length_precompute_iterations]⟩
  · rename_i h
    rw [length_precompute_iterations] at h
    simp only [ge_iff_le, not_le] at h
    refine ⟨?_, by simp [length_precompute_iterations]⟩
    show s.anim_step ≤ MAX_STEPS
    omega

theorem AppInv_applyEvent (s : App) (e : Event) (h : AppInv s) :
    AppInv (s.applyEvent e) := by
  obtain ⟨h1, h2⟩ := h
  cases e with
  | mouseMove pos =>
    show AppInv (s.on_mouse_move pos)
    cases hd : s.dragging with
    | none => rw [on_mouse_move_eq_none s pos hd]; exact ⟨h1, h2⟩
    | some idx =>
      by_cases hlt : idx < s.control_points.length
      · rw [on_mouse_move_eq_of_dragging s pos idx hd hlt]
        exact AppInv_recompute _
      · rw [on_mouse_move_eq_of_stale s pos idx hd hlt]
        exact ⟨h1, h2⟩
  | mouseDown b =>
    cases b with
    | left =>
      show AppInv (s.on_mouse_button_down .left)
      unfold App.on_mouse_button_down
      dsimp only
      cases find_point_index_near s.control_points (mouse_pos_to_pt s.last_mouse_pos)
          CLICK_RADIUS with
      | none => exact AppInv_recompute _
      | some idx => exact ⟨h1, h2⟩
    | other => exact ⟨h1, h2⟩
  | mouseUp b =>
    cases b with
    | left => exact ⟨h1, h2⟩
    | other => exact ⟨h1, h2⟩
  | keyDown k =>
    cases k with
    | enter =>
      show AppInv (s.on_key_down .enter)
      unfold App.on_key_down
      dsimp only
      split
      · exact ⟨h1, h2⟩
      · split
        · exact ⟨h1, h2⟩
        · exact ⟨Nat.zero_le _, h2⟩
    | keyC =>
      refine ⟨Nat.zero_le _, ?_⟩
      show (App.recompute_cache { s with control_points := [] }).cached_iters.length
        = MAX_STEPS + 1
      rw [recompute_cache_cached, length_precompute_iterations]
    | other => exact ⟨h1, h2⟩
  | draw elapsed =>
    show AppInv (s.on_draw elapsed)
    unfold App.on_draw
    split
    · split
      · split
        · exact ⟨Nat.zero_le _, h2⟩
        · rename_i hgt
          simp only [gt_iff_lt, not_lt] at hgt
          exact ⟨hgt, h2⟩
      · exact ⟨h1, h2⟩
    · exact ⟨Nat.zero_le _, h2⟩

theorem reachable_AppInv (s : App) (h : Reachable s) : AppInv s := by
  induction h with
  | init =>
    constructor
    · simp [App.new, MAX_STEPS]
    · simp [App.new, length_precompute_iterations]
  | step s e _ ih => exact AppInv_applyEvent s e ih

/-- C7: in every reachable state the playback index is a valid index into
the cache (anim_step at most MAX_STEPS, cache of MAX_STEPS + 1 levels);
every cache rebuild leaves the index strictly within the new cache; and
with fewer than 3 points or playback off, a render tick forces the index
to 0. -/
theorem playback_level_invariant (s : App) (hr : Reachable s) (e : Bool) :
    (s.anim_step ≤ MAX_STEPS ∧ s.cached_iters.length = MAX_STEPS + 1) ∧
    (App.recompute_cache s).anim_step < (App.recompute_cache s).cached_iters.length ∧
    (s.control_points.length < 3 ∨ s.anim_running = false →
      (s.on_draw e).anim_step = 0) := by
  refine ⟨reachable_AppInv s hr, recompute_cache_anim_step_lt s, ?_⟩
  intro hcond
  unfold App.on_draw
  rw [if_neg ?hcc]
  case hcc =>
    rintro ⟨hrun, hlen⟩
    rcases hcond with hc | hc
    · omega
    · rw [hc] at hrun
      exact Bool.false_ne_true hrun

/-- Witness for C7 at the initial state. -/
theorem playback_level_invariant_witness :
    (App.new.anim_step ≤ MAX_STEPS ∧ App.new.cached_iters.length = MAX_STEPS + 1) ∧
    (App.recompute_cache App.new).anim_step
      < (App.recompute_cache App.new).cached_iters.length ∧
    (App.new.control_points.length < 3 ∨ App.new.anim_running = false →
      (App.new.on_draw true).anim_step = 0) :=
  playback_level_invariant App.new Reachable.init true

/-- C8: if a drag was begun at a then-valid index and the clear command
runs before the next mouse-move event, that move mutates no control point
(the sequence stays the empty one the clear produced) and ends the drag
instead of indexing out of range. -/
theorem drag_clear_safety (s : App) (idx : Nat) (pos : Pt)
    (hdrag : s.dragging = some idx) (hvalid : idx < s.control_points.length) :
    ((s.applyEvent (.keyDown .keyC)).applyEvent (.mouseMove pos)).control_points
      = (s.applyEvent (.keyDown .keyC)).control_points ∧
    ((s.applyEvent (.keyDown .keyC)).applyEvent (.mouseMove pos)).control_points = [] ∧
    ((s.applyEvent (.keyDown .keyC)).applyEvent (.mouseMove pos)).dragging = none := by
  have hcp : (s.applyEvent (.keyDown .keyC)).control_points = [] :=
    recompute_cache_control_points { s with control_points := [] }
  have hdrag1 : (s.applyEvent (.keyDown .keyC)).dragging = some idx :=
    (recompute_cache_dragging { s with control_points := [] }).trans hdrag
  have hstale : ¬ idx < (s.applyEvent (.keyDown .keyC)).control_points.length := by
    rw [hcp]
    simp
  have hmove := on_mouse_move_eq_of_stale (s.applyEvent (.keyDown .keyC)) pos idx
    hdrag1 hstale
  refine ⟨?_, ?_, ?_⟩
  · show ((s.applyEvent (.keyDown .keyC)).on_mouse_move pos).control_points = _
    rw [hmove]
  · show ((s.applyEvent (.keyDown .keyC)).on_mouse_move pos).control_points = []
    rw [hmove]
    exact hcp
  · show ((s.applyEvent (.keyDown .keyC)).on_mouse_move pos).dragging = none
    rw [hmove]

/-- Witness for C8 at a concrete one-point state with an active drag. -/
theorem drag_clear_safety_witness :
    (⟨[⟨5,5⟩], [], some 0, ⟨0,0⟩, false, 0⟩ : App).dragging = some 0 ∧
    0 < (⟨[⟨5,5⟩], [], some 0, ⟨0,0⟩, false, 0⟩ : App).control_points.length ∧
    ((((⟨[⟨5,5⟩], [], some 0, ⟨0,0⟩, false, 0⟩ : App).applyEvent
          (.keyDown .keyC)).applyEvent (.mouseMove ⟨3,3⟩)).control_points
        = ((⟨[⟨5,5⟩], [], some 0, ⟨0,0⟩, false, 0⟩ : App).applyEvent
          (.keyDown .keyC)).control_points ∧
      (((⟨[⟨5,5⟩], [], some 0, ⟨0,0⟩, false, 0⟩ : App).applyEvent
          (.keyDown .keyC)).applyEvent (.mouseMove ⟨3,3⟩)).control_points = [] ∧
      (((⟨[⟨5,5⟩], [], some 0, ⟨0,0⟩, false, 0⟩ : App).applyEvent
          (.keyDown .keyC)).applyEvent (.mouseMove ⟨3,3⟩)).dragging = none) :=
  ⟨rfl, by simp,
    drag_clear_safety (⟨[⟨5,5⟩], [], some 0, ⟨0,0⟩, false, 0⟩ : App) 0 ⟨3,3⟩ rfl (by simp)⟩

/-- C9: a mouse move during a drag of a valid index replaces exactly that
control point with the clamped position, preserves the length, every other
point, the running flag and the drag state, records the raw position, and
recomputes the cache from the new points with the level index either kept
or reset to 0. -/
theorem drag_move_frame (s : App) (idx : Nat) (pos : Pt)
    (hdrag : s.dragging = some idx) (hvalid : idx < s.control_points.length) :
    (s.on_mouse_move pos).control_points
        = s.control_points.set idx (mouse_pos_to_pt pos) ∧
    (s.on_mouse_move pos).control_points.length = s.control_points.length ∧
    (∀ j, j ≠ idx → (s.on_mouse_move pos).control_points[j]? = s.control_points[j]?) ∧
    (s.on_mouse_move pos).anim_running = s.anim_running ∧
    (s.on_mouse_move pos).dragging = s.dragging ∧
    (s.on_mouse_move pos).last_mouse_pos = pos ∧
    (s.on_mouse_move pos).cached_iters
      = precompute_iterations (s.on_mouse_move pos).control_points MAX_STEPS false ∧
    ((s.on_mouse_move pos).anim_step = s.anim_step
      ∨ (s.on_mouse_move pos).anim_step = 0) := by
  rw [on_mouse_move_eq_of_dragging s pos idx hdrag hvalid]
  refine ⟨?_, ?_, ?_, ?_, ?_, ?_, ?_, ?_⟩
  · rw [recompute_cache_control_points]
  · rw [recompute_cache_control_points]
    exact List.length_set s.control_points idx (mouse_pos_to_pt pos)
  · intro j hj
    rw [recompute_cache_control_points]
    exact List.getElem?_set_ne (fun h => hj h.symm)
  · rw [recompute_cache_running]
  · rw [recompute_cache_dragging]
  · rw [recompute_cache_last_mouse]
  · rw [recompute_cache_cached, recompute_cache_control_points]
  · exact recompute_cache_anim_step _

/-- Witness for C9 at a concrete two-point state with an active drag. -/
theorem drag_move_frame_witness :
    (⟨[⟨5,5⟩, ⟨20,20⟩], [], some 0, ⟨0,0⟩, false, 0⟩ : App).dragging = some 0 ∧
    0 < (⟨[⟨5,5⟩, ⟨20,20⟩], [], some 0, ⟨0,0⟩, false, 0⟩ : App).control_points.length ∧
    ((⟨[⟨5,5⟩, ⟨20,20⟩], [], some 0, ⟨0,0⟩, false, 0⟩ : App).on_mouse_move
        ⟨3,4⟩).control_points
      = ([⟨5,5⟩, ⟨20,20⟩] : List Pt).set 0 (mouse_pos_to_pt ⟨3,4⟩) :=
  ⟨rfl, by simp,
    (drag_move_frame (⟨[⟨5,5⟩, ⟨20,20⟩], [], some 0, ⟨0,0⟩, false, 0⟩ : App) 0 ⟨3,4⟩
      rfl (by simp)).1⟩

